import Mathlib

/-!
Verification of the image classification and deduplication core of the
Dissect-Doc repository (`src/dissect/html_builder.py`, class `HTMLBuilder`):
the methods `_process_duplicate_images`, `_are_images_similar` and
`_filter_images_by_size`, plus the per-page size filter inline in
`_generate_page_section`.

Modelling conventions:
* A Python image dict becomes the structure `Image`.  `img.get(k)` for the
  string fields `filename`, `format`, `hash` is an `Option String` (absent
  key = `none`); `img.get(k, 0)` for `width`, `height`, `size_bytes` is a
  `Nat` with the default already absorbed.  Python truthiness of an optional
  string (`if not img.get('filename')`) is `strTruthy`.
* Python float arithmetic in `_are_images_similar` is modelled over `ℚ`
  (the literals 0.05 and 0.10 and the quotients involved are exact).
* Python dicts (`duplicate_groups`, `seen_hashes`) keep insertion order and
  have unique keys; they are modelled as association lists where update
  rewrites the first (hence only) binding and fresh keys append at the end.
* In-place mutation of the input records (hash enrichment) is modelled by
  the `out` component of the fold state: the contents of the input list as
  they stand when the pass finishes.
-/

/-- One extracted image record (a Python dict in the source). -/
structure Image where
  filename : Option String
  page : Nat
  width : Nat
  height : Nat
  size_bytes : Nat
  format : Option String
  hash : Option String
deriving Repr, DecidableEq

/-- Python truthiness of an optional string: `None` and `""` are falsy. -/
def strTruthy : Option String → Bool
  | none => false
  | some s => !s.isEmpty

/-- Modelled from the spec: `hashlib.md5(...).hexdigest()` from the Python
standard library (not part of this repository's sources) is abstracted as a
deterministic, never-empty string digest; the classifier uses no other
property of it. -/
def md5hex (s : String) : String := "md5(" ++ s ++ ")"

/-- The digest input `f"{img['filename']}{img.get('size_bytes', 0)}"`. -/
def synthInput (img : Image) : String :=
  img.filename.getD "" ++ toString img.size_bytes

/-- `_are_images_similar` (html_builder.py lines 85-118). -/
def are_images_similar (img1 img2 : Image) : Bool :=
  let w1 := img1.width
  let h1 := img1.height
  let w2 := img2.width
  let h2 := img2.height
  if w1 = 0 ∨ h1 = 0 ∨ w2 = 0 ∨ h2 = 0 then
    false
  else
    let width_diff : ℚ := |(w1 : ℚ) - (w2 : ℚ)| / ((max w1 w2 : Nat) : ℚ)
    let height_diff : ℚ := |(h1 : ℚ) - (h2 : ℚ)| / ((max h1 h2 : Nat) : ℚ)
    if width_diff > 0.05 ∨ height_diff > 0.05 then
      false
    else
      let size1 := img1.size_bytes
      let size2 := img2.size_bytes
      if size1 > 0 ∧ size2 > 0 ∧
          |(size1 : ℚ) - (size2 : ℚ)| / ((max size1 size2 : Nat) : ℚ) > 0.10 then
        false
      else if img1.format ≠ img2.format then
        false
      else
        true

/-- Executable reformulation of `_are_images_similar`: the exact rational
tolerance tests `d / m > 0.05` and `d / m > 0.10` are replaced by the
cross-multiplied integer tests `m < 20 * d` and `m < 10 * d`.  Proved equal
to `are_images_similar` below; only used to evaluate concrete instances. -/
def similarCross (img1 img2 : Image) : Bool :=
  let w1 := img1.width
  let h1 := img1.height
  let w2 := img2.width
  let h2 := img2.height
  if w1 = 0 ∨ h1 = 0 ∨ w2 = 0 ∨ h2 = 0 then
    false
  else
    if max w1 w2 < 20 * (max w1 w2 - min w1 w2) ∨
        max h1 h2 < 20 * (max h1 h2 - min h1 h2) then
      false
    else
      let size1 := img1.size_bytes
      let size2 := img2.size_bytes
      if size1 > 0 ∧ size2 > 0 ∧
          max size1 size2 < 10 * (max size1 size2 - min size1 size2) then
        false
      else if img1.format ≠ img2.format then
        false
      else
        true

/-- The hash enrichment of lines 51-55: a record with a truthy `filename`
but no truthy `hash` gets `hash` set to the digest of filename ++ size;
every other record is untouched.  (The guard on `filename` reflects that
line 47 skips nameless records before the enrichment can run.) -/
def enrichImage (img : Image) : Image :=
  if strTruthy img.filename && !strTruthy img.hash then
    { img with hash := some (md5hex (synthInput img)) }
  else
    img

/-- The dict idiom of lines 61-63 / 71-73: ensure `duplicate_groups[k]`
exists (seeding it with `[seed]`) and append `img` to it.  Insertion order
and key uniqueness of Python dicts are preserved: an existing binding is
updated in place, a fresh key goes to the end. -/
def appendGroup : List (String × List Image) → String → Image → Image →
    List (String × List Image)
  | [], k, seed, img => [(k, [seed, img])]
  | (k', g) :: rest, k, seed, img =>
    if k' = k then (k', g ++ [img]) :: rest
    else (k', g) :: appendGroup rest k seed img

/-- The loop state of `_process_duplicate_images`: the four accumulators of
lines 41-44 plus `out`, the contents of the (in-place mutated) input list. -/
structure DupState where
  unique : List Image
  groups : List (String × List Image)
  seen : List (String × Image)
  processed : List Image
  out : List Image
deriving Repr, DecidableEq

def initState : DupState := ⟨[], [], [], [], []⟩

/-- One iteration of the `for img in self.extraction_result['images']` loop
of `_process_duplicate_images` (lines 46-81). -/
def dupStep (s : DupState) (img : Image) : DupState :=
  if !strTruthy img.filename then
    { s with out := s.out ++ [img] }
  else
    let img' := enrichImage img
    let img_hash := img'.hash.getD ""
    match s.seen.lookup img_hash with
    | some original =>
      { s with
        groups := appendGroup s.groups img_hash original img'
        out := s.out ++ [img'] }
    | none =>
      match s.processed.find? (fun existing => are_images_similar img' existing) with
      | some existing =>
        { s with
          groups := appendGroup s.groups (existing.hash.getD "") existing img'
          out := s.out ++ [img'] }
      | none =>
        { s with
          seen := s.seen ++ [(img_hash, img')]
          unique := s.unique ++ [img']
          processed := s.processed ++ [img']
          out := s.out ++ [img'] }

/-- `_process_duplicate_images` (lines 39-83).  The Python method returns
`(unique_images, duplicate_groups)`; the full final state is kept so that
theorems can also speak about `seen_hashes` and the mutated input list. -/
def process_duplicate_images (images : List Image) : DupState :=
  images.foldl dupStep initState

/-- `_filter_images_by_size` (lines 120-140), returning
`(small_images, regular_images)`. -/
def filter_images_by_size (images : List Image) (min_image_size : Nat) :
    List Image × List Image :=
  images.foldl
    (fun acc img =>
      if !strTruthy img.filename then acc
      else if img.width * img.height < min_image_size * min_image_size then
        (acc.1 ++ [img], acc.2)
      else
        (acc.1, acc.2 ++ [img]))
    ([], [])

/-- The page restriction of `_generate_page_section` line 301:
`[img for img in images if img['page'] == page_num]`. -/
def page_images (images : List Image) (page_num : Nat) : List Image :=
  images.filter (fun img => img.page == page_num)

/-- All members of all duplicate groups, in order. -/
def groupMembers (groups : List (String × List Image)) : List Image :=
  (groups.map (fun p => p.2)).flatten

/-- All non-representative members (everything after the seed) of all
duplicate groups. -/
def groupTails (groups : List (String × List Image)) : List Image :=
  (groups.map (fun p => p.2.drop 1)).flatten

/-- The executable variant of `dupStep`, using `similarCross`. -/
def dupStepX (s : DupState) (img : Image) : DupState :=
  if !strTruthy img.filename then
    { s with out := s.out ++ [img] }
  else
    let img' := enrichImage img
    let img_hash := img'.hash.getD ""
    match s.seen.lookup img_hash with
    | some original =>
      { s with
        groups := appendGroup s.groups img_hash original img'
        out := s.out ++ [img'] }
    | none =>
      match s.processed.find? (fun existing => similarCross img' existing) with
      | some existing =>
        { s with
          groups := appendGroup s.groups (existing.hash.getD "") existing img'
          out := s.out ++ [img'] }
      | none =>
        { s with
          seen := s.seen ++ [(img_hash, img')]
          unique := s.unique ++ [img']
          processed := s.processed ++ [img']
          out := s.out ++ [img'] }

/-- Invariant tying the loop state after consuming a prefix `imgs` of the
input to that prefix: `processed_images` and `unique_images` coincide;
`seen_hashes` maps each registered hash to a unique record carrying it,
with no duplicate keys; every duplicate group is nonempty and headed by a
unique record whose hash is the group key; the unique records together with
the non-seed group members are exactly the named records of the prefix
(enriched), once each; and `out` is the prefix as mutated in place. -/
def DupInv (imgs : List Image) (s : DupState) : Prop :=
  s.processed = s.unique ∧
  (∀ p ∈ s.seen, p.2 ∈ s.unique ∧ p.2.hash = some p.1) ∧
  (∀ u ∈ s.unique, (u.hash.getD "", u) ∈ s.seen) ∧
  (s.seen.map Prod.fst).Nodup ∧
  (∀ p ∈ s.groups,
    (∃ u, p.2.head? = some u ∧ u ∈ s.unique ∧ u.hash = some p.1) ∧ p.2 ≠ []) ∧
  (s.unique ++ groupTails s.groups).Perm
    ((imgs.filter (fun i => strTruthy i.filename)).map enrichImage) ∧
  s.out = imgs.map enrichImage


/-! ### Concrete records used in scenario theorems and counterexamples -/

/-- Scenario record a: 500 x 500, 1000 bytes, png, no given hash. -/
def imgA : Image := ⟨some "a.png", 1, 500, 500, 1000, some "png", none⟩

/-- Scenario record b: 500 x 500, 1050 bytes, png, no given hash. -/
def imgB : Image := ⟨some "b.png", 1, 500, 500, 1050, some "png", none⟩

/-- Scenario record c: 10 x 10, 50 bytes, png, no given hash. -/
def imgC : Image := ⟨some "c.png", 1, 10, 10, 50, some "png", none⟩

/-- Page-1 record with a given hash. -/
def imgD1 : Image := ⟨some "d1.png", 1, 300, 300, 2000, some "png", some "hashD"⟩

/-- Page-2 record carrying the same given hash as `imgD1` but entirely
different dimensions, size and format. -/
def imgD2 : Image := ⟨some "d2.png", 2, 40, 40, 77, some "jpeg", some "hashD"⟩

/-- Base record with hash "hp". -/
def imgP : Image := ⟨some "p.png", 1, 100, 100, 1000, some "png", some "hp"⟩

/-- Record metadata-similar to `imgP` but with hash "hq". -/
def imgQ : Image := ⟨some "q.png", 1, 100, 100, 1000, some "png", some "hq"⟩

/-- Record with the same hash "hq" as `imgQ` but zero dimensions. -/
def imgR : Image := ⟨some "r.png", 1, 0, 0, 0, some "png", some "hq"⟩

/-- Width-tolerance boundary records: 100 vs 105 vs 106 pixels wide. -/
def img100 : Image := ⟨some "w100.png", 1, 100, 100, 1000, some "png", none⟩

def img105 : Image := ⟨some "w105.png", 1, 105, 100, 1000, some "png", none⟩

def img106 : Image := ⟨some "w106.png", 1, 106, 100, 1000, some "png", none⟩

/-- Area-boundary records for minSize 256: 256 x 256 and 255 x 256. -/
def img256 : Image := ⟨some "t256.png", 1, 256, 256, 100, some "png", none⟩

def img255 : Image := ⟨some "t255.png", 1, 255, 256, 100, some "png", none⟩

/-- Named record with zero width (unknown dimensions). -/
def imgZ : Image := ⟨some "z.png", 1, 0, 120, 30, some "png", none⟩


lemma ratio_gt_iff (d M k : ℕ) (hM : 0 < M) (hk : 0 < k) :
    ((d : ℚ) / (M : ℚ) > 1 / (k : ℚ)) ↔ M < k * d := by
  rw [gt_iff_lt, div_lt_div_iff₀ (by exact_mod_cast hk) (by exact_mod_cast hM),
    one_mul, mul_comm]
  norm_cast

lemma abs_sub_cast (a b : ℕ) :
    |(a : ℚ) - (b : ℚ)| = ((max a b - min a b : ℕ) : ℚ) := by
  rw [Nat.cast_sub min_le_max, Nat.cast_max, Nat.cast_min, max_sub_min_eq_abs,
    abs_sub_comm]

lemma are_images_similar_eq (img1 img2 : Image) :
    are_images_similar img1 img2 = similarCross img1 img2 := by
  by_cases h0 : img1.width = 0 ∨ img1.height = 0 ∨ img2.width = 0 ∨ img2.height = 0
  · simp [are_images_similar, similarCross, h0]
  · push_neg at h0
    obtain ⟨hw1, hh1, hw2, hh2⟩ := h0
    have hWm : 0 < max img1.width img2.width :=
      lt_of_lt_of_le (Nat.pos_of_ne_zero hw1) (le_max_left _ _)
    have hHm : 0 < max img1.height img2.height :=
      lt_of_lt_of_le (Nat.pos_of_ne_zero hh1) (le_max_left _ _)
    have hW : (|(img1.width : ℚ) - (img2.width : ℚ)| /
        ((max img1.width img2.width : ℕ) : ℚ) > 0.05) ↔
        max img1.width img2.width <
          20 * (max img1.width img2.width - min img1.width img2.width) := by
      rw [abs_sub_cast, show (0.05 : ℚ) = 1 / ((20 : ℕ) : ℚ) by norm_num,
        ratio_gt_iff _ _ _ hWm (by norm_num)]
    have hH : (|(img1.height : ℚ) - (img2.height : ℚ)| /
        ((max img1.height img2.height : ℕ) : ℚ) > 0.05) ↔
        max img1.height img2.height <
          20 * (max img1.height img2.height - min img1.height img2.height) := by
      rw [abs_sub_cast, show (0.05 : ℚ) = 1 / ((20 : ℕ) : ℚ) by norm_num,
        ratio_gt_iff _ _ _ hHm (by norm_num)]
    have hS : (img1.size_bytes > 0 ∧ img2.size_bytes > 0 ∧
        |(img1.size_bytes : ℚ) - (img2.size_bytes : ℚ)| /
          ((max img1.size_bytes img2.size_bytes : ℕ) : ℚ) > 0.10) ↔
        (img1.size_bytes > 0 ∧ img2.size_bytes > 0 ∧
          max img1.size_bytes img2.size_bytes <
            10 * (max img1.size_bytes img2.size_bytes -
              min img1.size_bytes img2.size_bytes)) := by
      constructor
      · rintro ⟨h1, h2, h3⟩
        refine ⟨h1, h2, ?_⟩
        rw [abs_sub_cast, show (0.10 : ℚ) = 1 / ((10 : ℕ) : ℚ) by norm_num,
          ratio_gt_iff _ _ _ (lt_of_lt_of_le h1 (le_max_left _ _)) (by norm_num)] at h3
        exact h3
      · rintro ⟨h1, h2, h3⟩
        refine ⟨h1, h2, ?_⟩
        rw [abs_sub_cast, show (0.10 : ℚ) = 1 / ((10 : ℕ) : ℚ) by norm_num,
          ratio_gt_iff _ _ _ (lt_of_lt_of_le h1 (le_max_left _ _)) (by norm_num)]
        exact h3
    simp only [are_images_similar, similarCross, hW, hH, hS]

lemma dupStep_eq : dupStep = dupStepX := by
  funext s img
  unfold dupStep dupStepX
  simp only [are_images_similar_eq]

lemma process_duplicate_images_eval (images : List Image) :
    process_duplicate_images images = images.foldl dupStepX initState := by
  rw [process_duplicate_images, dupStep_eq]

/-! ### Association-list helpers

`duplicate_groups` and `seen_hashes` are Python dicts; these lemmas relate
the association-list model (`List.lookup`, `appendGroup`) to membership. -/

lemma lookup_append_left {β : Type} {l : List (String × β)} (l' : List (String × β))
    {k : String} {v : β} (h : l.lookup k = some v) : (l ++ l').lookup k = some v := by
  induction l with
  | nil => simp [List.lookup] at h
  | cons p rest ih =>
    rcases p with ⟨k', v'⟩
    by_cases hk : k = k'
    · subst hk
      simp_all [List.lookup]
    · simp_all [List.lookup, beq_false_of_ne hk]

lemma lookup_append_new {β : Type} {l : List (String × β)} {k : String} (v : β)
    (h : l.lookup k = none) : (l ++ [(k, v)]).lookup k = some v := by
  induction l with
  | nil => simp [List.lookup]
  | cons p rest ih =>
    rcases p with ⟨k', v'⟩
    by_cases hk : k = k'
    · subst hk
      simp [List.lookup] at h
    · simp_all [List.lookup, beq_false_of_ne hk]
      exact ih h

lemma lookup_append_ne {β : Type} {l : List (String × β)} {k k' : String} (v' : β)
    (h : k ≠ k') : (l ++ [(k', v')]).lookup k = l.lookup k := by
  induction l with
  | nil => simp [List.lookup, beq_false_of_ne h]
  | cons p rest ih =>
    rcases p with ⟨k'', v''⟩
    by_cases hk : k = k''
    · subst hk
      simp [List.lookup]
    · simp_all [List.lookup, beq_false_of_ne hk]

lemma lookup_none_not_mem {β : Type} {l : List (String × β)} {k : String} {v : β}
    (h : l.lookup k = none) : (k, v) ∉ l := by
  induction l with
  | nil => simp
  | cons p rest ih =>
    rcases p with ⟨k', v'⟩
    by_cases hk : k = k'
    · subst hk
      simp [List.lookup] at h
    · simp_all [List.lookup, beq_false_of_ne hk]
      exact ih h

lemma lookup_mem {β : Type} {l : List (String × β)} {k : String} {v : β}
    (h : l.lookup k = some v) : (k, v) ∈ l := by
  induction l with
  | nil => simp [List.lookup] at h
  | cons p rest ih =>
    rcases p with ⟨k', v'⟩
    by_cases hk : k = k'
    · subst hk
      simp_all [List.lookup]
    · simp_all [List.lookup, beq_false_of_ne hk]

lemma lookup_of_mem_nodup {β : Type} {l : List (String × β)}
    (hnd : (l.map Prod.fst).Nodup) {k : String} {v : β} (hm : (k, v) ∈ l) :
    l.lookup k = some v := by
  induction l with
  | nil => simp at hm
  | cons p rest ih =>
    rcases p with ⟨k', v'⟩
    simp only [List.map_cons, List.nodup_cons] at hnd
    rcases List.mem_cons.mp hm with h | h
    · rw [Prod.mk.injEq] at h
      rcases h with ⟨h1, h2⟩
      subst h1
      subst h2
      simp [List.lookup]
    · by_cases hk : k = k'
      · subst hk
        exact absurd (List.mem_map.mpr ⟨(k, v), h, rfl⟩) hnd.1
      · simp only [List.lookup, beq_false_of_ne hk]
        exact ih hnd.2 h

lemma appendGroup_lookup_self (gs : List (String × List Image)) (k : String)
    (seed img : Image) :
    (appendGroup gs k seed img).lookup k =
      some (((gs.lookup k).getD [seed]) ++ [img]) := by
  induction gs with
  | nil => simp [appendGroup, List.lookup]
  | cons p rest ih =>
    rcases p with ⟨k', g⟩
    by_cases hk : k' = k
    · subst hk
      simp [appendGroup, List.lookup]
    · simp only [appendGroup, if_neg hk, List.lookup, beq_false_of_ne (Ne.symm hk)]
      exact ih

lemma appendGroup_lookup_ne (gs : List (String × List Image)) {k k' : String}
    (seed img : Image) (h : k' ≠ k) :
    (appendGroup gs k seed img).lookup k' = gs.lookup k' := by
  induction gs with
  | nil => simp [appendGroup, List.lookup, beq_false_of_ne h]
  | cons p rest ih =>
    rcases p with ⟨k'', g⟩
    by_cases hk : k'' = k
    · subst hk
      simp [appendGroup, List.lookup, beq_false_of_ne h]
    · by_cases hk2 : k' = k''
      · subst hk2
        simp [appendGroup, if_neg hk, List.lookup]
      · simp only [appendGroup, if_neg hk, List.lookup,
          beq_false_of_ne hk2]
        exact ih

lemma groupTails_cons (k : String) (g : List Image)
    (rest : List (String × List Image)) :
    groupTails ((k, g) :: rest) = g.drop 1 ++ groupTails rest := by
  simp [groupTails]

lemma appendGroup_tails_perm (gs : List (String × List Image)) (k : String)
    (seed img : Image) (hne : ∀ p ∈ gs, p.2 ≠ []) :
    (groupTails (appendGroup gs k seed img)).Perm (groupTails gs ++ [img]) := by
  induction gs with
  | nil => simp [appendGroup, groupTails]
  | cons p rest ih =>
    rcases p with ⟨k', g⟩
    have hg : g ≠ [] := hne (k', g) (List.mem_cons_self _ _)
    by_cases hk : k' = k
    · subst hk
      rw [appendGroup, if_pos rfl, groupTails_cons, groupTails_cons,
        List.drop_append_of_le_length (List.length_pos.mpr hg), List.append_assoc,
        List.append_assoc]
      exact List.Perm.append_left _ (List.perm_append_comm)
    · rw [appendGroup, if_neg hk, groupTails_cons, groupTails_cons,
        List.append_assoc]
      exact List.Perm.append_left _
        (ih (fun q hq => hne q (List.mem_cons_of_mem _ hq)))

lemma appendGroup_head_pred (Q : String → Image → Prop)
    (gs : List (String × List Image)) (k : String) (seed img : Image)
    (hgs : ∀ p ∈ gs, (∃ u, p.2.head? = some u ∧ Q p.1 u) ∧ p.2 ≠ [])
    (hnew : Q k seed) :
    ∀ p ∈ appendGroup gs k seed img,
      (∃ u, p.2.head? = some u ∧ Q p.1 u) ∧ p.2 ≠ [] := by
  induction gs with
  | nil =>
    intro p hp
    simp only [appendGroup, List.mem_singleton] at hp
    subst hp
    exact ⟨⟨seed, rfl, hnew⟩, by simp⟩
  | cons q rest ih =>
    rcases q with ⟨k', g⟩
    have hq := hgs (k', g) (List.mem_cons_self _ _)
    intro p hp
    by_cases hk : k' = k
    · subst hk
      rw [appendGroup, if_pos rfl] at hp
      rcases List.mem_cons.mp hp with h | h
      · subst h
        rcases hq.1 with ⟨u, hu, hQ⟩
        refine ⟨⟨u, ?_, hQ⟩, by simp⟩
        rcases g with _ | ⟨x, xs⟩
        · exact absurd rfl hq.2
        · simpa using hu
      · exact hgs p (List.mem_cons_of_mem _ h)
    · rw [appendGroup, if_neg hk] at hp
      rcases List.mem_cons.mp hp with h | h
      · subst h
        exact hq
      · exact ih (fun q hq => hgs q (List.mem_cons_of_mem _ hq)) p h

/-! ### Enrichment and step-equation lemmas -/

lemma strTruthy_true_iff (o : Option String) :
    strTruthy o = true ↔ ∃ s, o = some s ∧ s ≠ "" := by
  cases o with
  | none => simp [strTruthy]
  | some s =>
    simp only [strTruthy, Bool.not_eq_true', Option.some.injEq]
    constructor
    · intro h
      exact ⟨s, rfl, fun he => by rw [he] at h; exact absurd h (by decide)⟩
    · rintro ⟨t, rfl, ht⟩
      rw [Bool.eq_false_iff]
      exact fun he => ht (String.isEmpty_iff _ |>.mp he)

lemma md5hex_ne_empty (s : String) : md5hex s ≠ "" := by
  intro h
  have hl := congrArg String.length h
  simp [md5hex, String.length_append] at hl
  exact absurd hl.2 (by decide)

lemma enrichImage_not_named {img : Image} (h : strTruthy img.filename = false) :
    enrichImage img = img := by
  simp [enrichImage, h]

lemma enrichImage_hash_truthy {img : Image} (h : strTruthy img.hash = true) :
    enrichImage img = img := by
  simp [enrichImage, h]

lemma enrichImage_hash_of_named {img : Image} (h : strTruthy img.filename = true) :
    (enrichImage img).hash = some ((enrichImage img).hash.getD "") ∧
      (enrichImage img).hash.getD "" ≠ "" := by
  by_cases hh : strTruthy img.hash = true
  · rw [enrichImage_hash_truthy hh]
    rcases (strTruthy_true_iff img.hash).mp hh with ⟨s, hs, hne⟩
    rw [hs]
    exact ⟨rfl, by simpa using hne⟩
  · have hh' : strTruthy img.hash = false := by
      cases hx : strTruthy img.hash with
      | false => rfl
      | true => exact absurd hx hh
    simp only [enrichImage, h, hh', Bool.not_false, Bool.and_self, if_pos]
    exact ⟨rfl, md5hex_ne_empty _⟩

lemma dupStep_skip (s : DupState) (img : Image)
    (h : strTruthy img.filename = false) :
    dupStep s img = { s with out := s.out ++ [img] } := by
  simp [dupStep, h]

lemma dupStep_exact (s : DupState) (img original : Image)
    (h : strTruthy img.filename = true)
    (hlk : s.seen.lookup ((enrichImage img).hash.getD "") = some original) :
    dupStep s img =
      { s with
        groups := appendGroup s.groups ((enrichImage img).hash.getD "")
          original (enrichImage img)
        out := s.out ++ [enrichImage img] } := by
  simp [dupStep, h, hlk]

lemma dupStep_similar (s : DupState) (img existing : Image)
    (h : strTruthy img.filename = true)
    (hlk : s.seen.lookup ((enrichImage img).hash.getD "") = none)
    (hfind : s.processed.find?
      (fun ex => are_images_similar (enrichImage img) ex) = some existing) :
    dupStep s img =
      { s with
        groups := appendGroup s.groups (existing.hash.getD "")
          existing (enrichImage img)
        out := s.out ++ [enrichImage img] } := by
  simp [dupStep, h, hlk, hfind]

lemma dupStep_unique (s : DupState) (img : Image)
    (h : strTruthy img.filename = true)
    (hlk : s.seen.lookup ((enrichImage img).hash.getD "") = none)
    (hfind : s.processed.find?
      (fun ex => are_images_similar (enrichImage img) ex) = none) :
    dupStep s img =
      { s with
        seen := s.seen ++ [((enrichImage img).hash.getD "", enrichImage img)]
        unique := s.unique ++ [enrichImage img]
        processed := s.processed ++ [enrichImage img]
        out := s.out ++ [enrichImage img] } := by
  simp [dupStep, h, hlk, hfind]

/-! ### The loop invariant of `_process_duplicate_images` -/

lemma append_singleton_perm (a b : List Image) (x : Image) :
    ((a ++ [x]) ++ b).Perm ((a ++ b) ++ [x]) := by
  rw [List.append_assoc, List.append_assoc]
  exact List.Perm.append_left a List.perm_append_comm

lemma dupInv_init : DupInv [] initState := by
  refine ⟨rfl, ?_, ?_, ?_, ?_, ?_, rfl⟩ <;> simp [initState, groupTails]

lemma dupInv_step {imgs : List Image} {s : DupState} (inv : DupInv imgs s)
    (img : Image) : DupInv (imgs ++ [img]) (dupStep s img) := by
  obtain ⟨hproc, hseen, huniq, hnd, hgroups, hperm, hout⟩ := inv
  by_cases hname : strTruthy img.filename = true
  · have hHash := enrichImage_hash_of_named hname
    have hR : ((imgs ++ [img]).filter (fun i => strTruthy i.filename)).map
        enrichImage =
        ((imgs.filter (fun i => strTruthy i.filename)).map enrichImage) ++
          [enrichImage img] := by
      simp [List.filter_append, hname]
    have hO : (imgs ++ [img]).map enrichImage =
        imgs.map enrichImage ++ [enrichImage img] := by simp
    cases hlk : s.seen.lookup ((enrichImage img).hash.getD "") with
    | some original =>
      rw [dupStep_exact s img original hname hlk]
      have horig := hseen _ (lookup_mem hlk)
      refine ⟨hproc, hseen, huniq, hnd, ?_, ?_, ?_⟩
      · exact appendGroup_head_pred
          (fun k u => u ∈ s.unique ∧ u.hash = some k) s.groups
          ((enrichImage img).hash.getD "") original (enrichImage img)
          hgroups horig
      · have htails := appendGroup_tails_perm s.groups
          ((enrichImage img).hash.getD "") original (enrichImage img)
          (fun p hp => (hgroups p hp).2)
        rw [hR]
        refine (List.Perm.append_left s.unique htails).trans ?_
        rw [← List.append_assoc]
        exact List.Perm.append_right _ hperm
      · rw [hO, ← hout]
    | none =>
      cases hfind : s.processed.find?
          (fun ex => are_images_similar (enrichImage img) ex) with
      | some existing =>
        rw [dupStep_similar s img existing hname hlk hfind]
        have hexmem : existing ∈ s.unique := by
          rw [← hproc]
          exact List.mem_of_find?_eq_some hfind
        have hexhash := (hseen _ (huniq existing hexmem)).2
        refine ⟨hproc, hseen, huniq, hnd, ?_, ?_, ?_⟩
        · exact appendGroup_head_pred
            (fun k u => u ∈ s.unique ∧ u.hash = some k) s.groups
            (existing.hash.getD "") existing (enrichImage img)
            hgroups ⟨hexmem, hexhash⟩
        · have htails := appendGroup_tails_perm s.groups
            (existing.hash.getD "") existing (enrichImage img)
            (fun p hp => (hgroups p hp).2)
          rw [hR]
          refine (List.Perm.append_left s.unique htails).trans ?_
          rw [← List.append_assoc]
          exact List.Perm.append_right _ hperm
        · rw [hO, ← hout]
      | none =>
        rw [dupStep_unique s img hname hlk hfind]
        refine ⟨?_, ?_, ?_, ?_, ?_, ?_, ?_⟩
        · rw [hproc]
        · intro p hp
          rcases List.mem_append.mp hp with h | h
          · exact ⟨List.mem_append_left _ (hseen p h).1, (hseen p h).2⟩
          · rw [List.mem_singleton] at h
            subst h
            exact ⟨List.mem_append_right _ (List.mem_singleton_self _),
              hHash.1⟩
        · intro u hu
          rcases List.mem_append.mp hu with h | h
          · exact List.mem_append_left _ (huniq u h)
          · rw [List.mem_singleton] at h
            subst h
            exact List.mem_append_right _ (List.mem_singleton_self _)
        · rw [List.map_append]
          refine List.Nodup.append hnd (by simp) ?_
          intro a ha hb
          rw [List.mem_map] at ha
          rcases ha with ⟨p, hp, rfl⟩
          simp only [List.map_cons, List.map_nil, List.mem_singleton] at hb
          have : ((enrichImage img).hash.getD "", p.2) ∈ s.seen := by
            have : p = ((enrichImage img).hash.getD "", p.2) := by
              rw [← hb]
            rw [← this]
            exact hp
          exact lookup_none_not_mem hlk this
        · intro p hp
          rcases hgroups p hp with ⟨⟨u, hu1, hu2, hu3⟩, hne⟩
          exact ⟨⟨u, hu1, List.mem_append_left _ hu2, hu3⟩, hne⟩
        · rw [hR]
          refine (append_singleton_perm s.unique
            (groupTails s.groups) (enrichImage img)).trans ?_
          exact List.Perm.append_right _ hperm
        · rw [hO, ← hout]
  · have hname' : strTruthy img.filename = false := by
      cases hx : strTruthy img.filename with
      | false => rfl
      | true => exact absurd hx hname
    rw [dupStep_skip s img hname']
    refine ⟨hproc, hseen, huniq, hnd, hgroups, ?_, ?_⟩
    · have hR : (imgs ++ [img]).filter (fun i => strTruthy i.filename) =
          imgs.filter (fun i => strTruthy i.filename) := by
        simp [List.filter_append, hname']
      rw [hR]
      exact hperm
    · simp [hout, enrichImage_not_named hname']

lemma dupInv_fold (pre rest : List Image) (s : DupState)
    (h : DupInv pre s) : DupInv (pre ++ rest) (rest.foldl dupStep s) := by
  induction rest generalizing pre s with
  | nil => simpa using h
  | cons i tl ih =>
    have := ih (pre ++ [i]) (dupStep s i) (dupInv_step h i)
    simpa [List.append_assoc] using this

lemma dupInv_process (imgs : List Image) :
    DupInv imgs (process_duplicate_images imgs) := by
  have := dupInv_fold [] imgs initState dupInv_init
  simpa [process_duplicate_images] using this

/-! ### Monotonicity of the loop state -/

lemma dupStep_seen_lookup_mono {s : DupState} {k : String} {v : Image}
    (h : s.seen.lookup k = some v) (img : Image) :
    (dupStep s img).seen.lookup k = some v := by
  by_cases hname : strTruthy img.filename = true
  · cases hlk : s.seen.lookup ((enrichImage img).hash.getD "") with
    | some original =>
      rw [dupStep_exact s img original hname hlk]
      exact h
    | none =>
      cases hfind : s.processed.find?
          (fun ex => are_images_similar (enrichImage img) ex) with
      | some existing =>
        rw [dupStep_similar s img existing hname hlk hfind]
        exact h
      | none =>
        rw [dupStep_unique s img hname hlk hfind]
        exact lookup_append_left _ h
  · have hname' : strTruthy img.filename = false := by
      cases hx : strTruthy img.filename with
      | false => rfl
      | true => exact absurd hx hname
    rw [dupStep_skip s img hname']
    exact h

lemma appendGroup_lookup_mono {gs : List (String × List Image)} {k : String}
    {g : List Image} (h : gs.lookup k = some g) (k0 : String)
    (seed img : Image) :
    ∃ g', (appendGroup gs k0 seed img).lookup k = some g' ∧ ∀ x ∈ g, x ∈ g' := by
  by_cases hk : k = k0
  · subst hk
    refine ⟨g ++ [img], ?_, fun x hx => List.mem_append_left _ hx⟩
    rw [appendGroup_lookup_self, h]
    rfl
  · exact ⟨g, by rw [appendGroup_lookup_ne _ seed img hk]; exact h,
      fun x hx => hx⟩

lemma dupStep_groups_lookup_mono {s : DupState} {k : String} {g : List Image}
    (h : s.groups.lookup k = some g) (img : Image) :
    ∃ g', (dupStep s img).groups.lookup k = some g' ∧ ∀ x ∈ g, x ∈ g' := by
  by_cases hname : strTruthy img.filename = true
  · cases hlk : s.seen.lookup ((enrichImage img).hash.getD "") with
    | some original =>
      rw [dupStep_exact s img original hname hlk]
      exact appendGroup_lookup_mono h _ original (enrichImage img)
    | none =>
      cases hfind : s.processed.find?
          (fun ex => are_images_similar (enrichImage img) ex) with
      | some existing =>
        rw [dupStep_similar s img existing hname hlk hfind]
        exact appendGroup_lookup_mono h _ existing (enrichImage img)
      | none =>
        rw [dupStep_unique s img hname hlk hfind]
        exact ⟨g, h, fun x hx => hx⟩
  · have hname' : strTruthy img.filename = false := by
      cases hx : strTruthy img.filename with
      | false => rfl
      | true => exact absurd hx hname
    rw [dupStep_skip s img hname']
    exact ⟨g, h, fun x hx => hx⟩

lemma foldl_groups_lookup_mono (rest : List Image) (s : DupState)
    {k : String} {g : List Image} (h : s.groups.lookup k = some g) :
    ∃ g', (rest.foldl dupStep s).groups.lookup k = some g' ∧
      ∀ x ∈ g, x ∈ g' := by
  induction rest generalizing s g with
  | nil => exact ⟨g, h, fun x hx => hx⟩
  | cons i tl ih =>
    rcases dupStep_groups_lookup_mono h i with ⟨g1, hg1, hsub1⟩
    rcases ih (dupStep s i) hg1 with ⟨g2, hg2, hsub2⟩
    exact ⟨g2, hg2, fun x hx => hsub2 x (hsub1 x hx)⟩

/-! ### Characterisation of `_filter_images_by_size` as a pair of filters -/

lemma filter_images_by_size_go (images : List Image) (m : Nat)
    (a b : List Image) :
    images.foldl
      (fun acc img =>
        if !strTruthy img.filename then acc
        else if img.width * img.height < m * m then
          (acc.1 ++ [img], acc.2)
        else
          (acc.1, acc.2 ++ [img])) (a, b) =
      (a ++ images.filter (fun i => strTruthy i.filename &&
          decide (i.width * i.height < m * m)),
       b ++ images.filter (fun i => strTruthy i.filename &&
          !decide (i.width * i.height < m * m))) := by
  induction images generalizing a b with
  | nil => simp
  | cons i tl ih =>
    by_cases hn : strTruthy i.filename = true
    · by_cases hs : i.width * i.height < m * m
      · simp only [List.foldl_cons, hn, hs, Bool.not_true, Bool.false_eq_true,
          if_false, if_true, decide_eq_true_eq, List.filter_cons,
          Bool.and_eq_true, decide_eq_true_eq]
        rw [ih]
        simp [hn, hs, List.append_assoc]
      · simp only [List.foldl_cons, hn, hs, Bool.not_true, Bool.false_eq_true,
          if_false, List.filter_cons]
        rw [ih]
        simp [hn, hs, List.append_assoc]
    · have hn' : strTruthy i.filename = false := by
        cases hx : strTruthy i.filename with
        | false => rfl
        | true => exact absurd hx hn
      simp only [List.foldl_cons, hn', Bool.not_false, if_true,
        List.filter_cons]
      rw [ih]
      simp [hn']

lemma filter_images_by_size_eq (images : List Image) (m : Nat) :
    filter_images_by_size images m =
      (images.filter (fun i => strTruthy i.filename &&
          decide (i.width * i.height < m * m)),
       images.filter (fun i => strTruthy i.filename &&
          !decide (i.width * i.height < m * m))) := by
  have := filter_images_by_size_go images m [] []
  simpa [filter_images_by_size] using this

/-! ### Characterisation of `_are_images_similar` -/

lemma are_images_similar_true_iff (a b : Image)
    (ha : a.width ≠ 0) (hb : a.height ≠ 0) (hc : b.width ≠ 0)
    (hd : b.height ≠ 0) :
    are_images_similar a b = true ↔
      (|(a.width : ℚ) - (b.width : ℚ)| /
          ((max a.width b.width : Nat) : ℚ) ≤ 0.05 ∧
       |(a.height : ℚ) - (b.height : ℚ)| /
          ((max a.height b.height : Nat) : ℚ) ≤ 0.05 ∧
       a.format = b.format ∧
       (a.size_bytes ≠ 0 → b.size_bytes ≠ 0 →
         |(a.size_bytes : ℚ) - (b.size_bytes : ℚ)| /
           ((max a.size_bytes b.size_bytes : Nat) : ℚ) ≤ 0.10)) := by
  simp only [are_images_similar]
  split_ifs with h0 h1 h2 h3
  · rcases h0 with h | h | h | h
    · exact absurd h ha
    · exact absurd h hb
    · exact absurd h hc
    · exact absurd h hd
  · simp only [Bool.false_eq_true, false_iff]
    rintro ⟨hw, hh, _, _⟩
    rcases h1 with h | h
    · exact absurd hw (not_le.mpr h)
    · exact absurd hh (not_le.mpr h)
  · simp only [Bool.false_eq_true, false_iff]
    rintro ⟨_, _, _, hs⟩
    rcases h2 with ⟨h2a, h2b, h2c⟩
    exact absurd (hs (Nat.pos_iff_ne_zero.mp h2a) (Nat.pos_iff_ne_zero.mp h2b))
      (not_le.mpr h2c)
  · simp only [Bool.false_eq_true, false_iff]
    rintro ⟨_, _, hf, _⟩
    exact h3 hf
  · simp only [true_iff]
    have hw := not_or.mp h1
    refine ⟨not_lt.mp hw.1, not_lt.mp hw.2, Decidable.of_not_not h3, ?_⟩
    intro hs1 hs2
    by_contra hgt
    exact h2 ⟨Nat.pos_of_ne_zero hs1, Nat.pos_of_ne_zero hs2, not_le.mp hgt⟩

/-! ### Claim theorems -/

/-- C1 (counterexample): on the spec's three-record scenario input, the
`unique` sequence returned by `_process_duplicate_images` is not `[a]`
(neither before nor after hash enrichment): the small record c, being
neither an exact-hash duplicate nor similar to a, also lands in `unique`,
so the claimed output `unique=[a]` is false. -/
theorem C1_counterexample :
    (process_duplicate_images [imgA, imgB, imgC]).unique ≠ [enrichImage imgA] ∧
    (process_duplicate_images [imgA, imgB, imgC]).unique ≠ [imgA] := by
  simp only [process_duplicate_images_eval]
  exact ⟨by decide, by decide⟩

/-- C1 (amended): on the scenario input `[a, b, c]` with no given hashes and
minSize 256, `_process_duplicate_images` returns `unique = [a, c]` and a
single duplicate group keyed by a's synthesized hash containing `[a, b]`;
`_filter_images_by_size` (run, as in `__init__`, on the hash-enriched list)
returns `small = [c]` and `regular = [a, b]`. -/
theorem C1_amended :
    (process_duplicate_images [imgA, imgB, imgC]).unique =
      [enrichImage imgA, enrichImage imgC] ∧
    (process_duplicate_images [imgA, imgB, imgC]).groups =
      [(md5hex (synthInput imgA), [enrichImage imgA, enrichImage imgB])] ∧
    filter_images_by_size (process_duplicate_images [imgA, imgB, imgC]).out 256 =
      ([enrichImage imgC], [enrichImage imgA, enrichImage imgB]) := by
  simp only [process_duplicate_images_eval]
  exact ⟨by decide, by decide, by decide⟩

/-- C2 (counterexample): for the input `[d1, d2]` with identical given
hashes, the record d1 appears in the `unique` sequence AND as a member of
the duplicate group (the group is seeded with the original), so the
multiset union of `unique` and all group members contains d1 twice, not
exactly once, and d1 appears both in `unique` and in a group. -/
theorem C2_counterexample :
    strTruthy imgD1.filename = true ∧ strTruthy imgD2.filename = true ∧
    imgD1 ∈ (process_duplicate_images [imgD1, imgD2]).unique ∧
    imgD1 ∈ groupMembers (process_duplicate_images [imgD1, imgD2]).groups ∧
    ((process_duplicate_images [imgD1, imgD2]).unique ++
      groupMembers (process_duplicate_images [imgD1, imgD2]).groups).count imgD1
      = 2 := by
  simp only [process_duplicate_images_eval]
  exact ⟨by decide, by decide, by decide, by decide, by decide⟩

/-- C2 (amended): the `unique` sequence together with the non-seed members
of all duplicate groups is a permutation of the named (hash-enriched) input
records, each exactly once — nothing is dropped and, apart from each
group's first member (the representative, which also sits in `unique`), no
record is duplicated across the outputs or shared between two groups. -/
theorem C2_amended (images : List Image) :
    ((process_duplicate_images images).unique ++
      groupTails (process_duplicate_images images).groups).Perm
      ((images.filter (fun i => strTruthy i.filename)).map enrichImage) ∧
    ∀ p ∈ (process_duplicate_images images).groups,
      ∃ u, p.2.head? = some u ∧ u ∈ (process_duplicate_images images).unique := by
  obtain ⟨-, -, -, -, hgroups, hperm, -⟩ := dupInv_process images
  refine ⟨hperm, fun p hp => ?_⟩
  rcases hgroups p hp with ⟨⟨u, h1, h2, -⟩, -⟩
  exact ⟨u, h1, h2⟩

/-- C2 (witness): the amended claim applied to the concrete input
`[d1, d2]` and its single duplicate group. -/
theorem C2_witness :
    ∃ u, (("hashD", [imgD1, imgD2]) : String × List Image).2.head? = some u ∧
      u ∈ (process_duplicate_images [imgD1, imgD2]).unique :=
  (C2_amended [imgD1, imgD2]).2 ("hashD", [imgD1, imgD2])
    (by simp only [process_duplicate_images_eval]; decide)

/-- C3 (counterexample): q and r carry the identical content hash "hq" and
both have filenames, yet no duplicate group contains them both: q was
absorbed (as a merely similar record) into p's group before its hash was
ever registered, so r, failing the similarity test (zero dimensions),
became unique instead of joining q.  The full run on `[p, q, r]` produces
the single group `[("hp", [p, q])]`, which does not contain r. -/
theorem C3_counterexample :
    imgQ.hash = imgR.hash ∧
    strTruthy imgQ.filename = true ∧ strTruthy imgR.filename = true ∧
    (process_duplicate_images [imgP, imgQ, imgR]).groups =
      [("hp", [imgP, imgQ])] ∧
    imgQ ∈ [imgP, imgQ] ∧ imgR ∉ [imgP, imgQ] := by
  refine ⟨rfl, by decide, by decide, ?_, by decide, by decide⟩
  simp only [process_duplicate_images_eval]
  decide

/-- C3 (amended): two records with an identical truthy content hash are
placed in the same duplicate group PROVIDED the hash was registered in
`seen_hashes` before the later record is processed — i.e. provided the
earlier record carrying it was classified unique rather than absorbed into
another group as a merely similar member.  Then the later record is
appended to the group keyed by that hash, which contains the registered
unique record `u` as well. -/
theorem C3_amended (pre post : List Image) (r u : Image) (h : String)
    (hname : strTruthy r.filename = true)
    (hhash : r.hash = some h) (hne : h ≠ "")
    (hreg : (process_duplicate_images pre).seen.lookup h = some u) :
    u.hash = some h ∧
    ∃ g, (process_duplicate_images (pre ++ r :: post)).groups.lookup h =
      some g ∧ u ∈ g ∧ r ∈ g := by
  obtain ⟨hproc, hseen, huniq, hnd, hgroups, hperm, hout⟩ := dupInv_process pre
  have huh : u.hash = some h := (hseen _ (lookup_mem hreg)).2
  have hrtr : strTruthy r.hash = true :=
    (strTruthy_true_iff r.hash).mpr ⟨h, hhash, hne⟩
  have henr : enrichImage r = r := enrichImage_hash_truthy hrtr
  have hkey : (enrichImage r).hash.getD "" = h := by
    rw [henr, hhash]
    rfl
  have hlk : (process_duplicate_images pre).seen.lookup
      ((enrichImage r).hash.getD "") = some u := by
    rw [hkey]
    exact hreg
  have hsplit : process_duplicate_images (pre ++ r :: post) =
      post.foldl dupStep (dupStep (process_duplicate_images pre) r) := by
    rw [process_duplicate_images, process_duplicate_images,
      show pre ++ r :: post = (pre ++ [r]) ++ post from by simp,
      List.foldl_append, List.foldl_append]
    rfl
  have hstep := dupStep_exact (process_duplicate_images pre) r u hname hlk
  have hg1 : (dupStep (process_duplicate_images pre) r).groups.lookup h =
      some ((((process_duplicate_images pre).groups.lookup h).getD [u]) ++ [r]) := by
    rw [hstep]
    have hkey2 : r.hash.getD "" = h := by
      rw [hhash]
      rfl
    simp only [henr, hkey2]
    exact appendGroup_lookup_self (process_duplicate_images pre).groups h u r
  have hmem_u : u ∈ (((process_duplicate_images pre).groups.lookup h).getD [u])
      ++ [r] := by
    cases hG : (process_duplicate_images pre).groups.lookup h with
    | none => simp
    | some g0 =>
      rcases hgroups _ (lookup_mem hG) with ⟨⟨u', hh1, hh2, hh3⟩, hne0⟩
      have hmemseen : (h, u') ∈ (process_duplicate_images pre).seen := by
        have hm := huniq u' hh2
        rw [hh3] at hm
        simpa using hm
      have hlu : (process_duplicate_images pre).seen.lookup h = some u' :=
        lookup_of_mem_nodup hnd hmemseen
      rw [hreg] at hlu
      have huu : u' = u := by
        injection hlu with hinj
        exact hinj.symm
      subst huu
      cases g0 with
      | nil => simp at hh1
      | cons x xs =>
        have hx : x = u' := by
          simpa using hh1
        subst hx
        simp
  have hmem_r : r ∈ (((process_duplicate_images pre).groups.lookup h).getD [u])
      ++ [r] := List.mem_append_right _ (List.mem_singleton_self _)
  rcases foldl_groups_lookup_mono post
    (dupStep (process_duplicate_images pre) r) hg1 with ⟨gf, hgf, hsub⟩
  refine ⟨huh, gf, ?_, hsub _ hmem_u, hsub _ hmem_r⟩
  rw [hsplit]
  exact hgf

/-- C3 (witness): the amended claim applied to the concrete input
`[d1] ++ d2 :: []`: d1's given hash "hashD" is registered after the prefix
`[d1]`, so d2, carrying the same hash, joins d1 in the group keyed by it. -/
theorem C3_witness :
    imgD1.hash = some "hashD" ∧
    ∃ g, (process_duplicate_images ([imgD1] ++ imgD2 :: [])).groups.lookup
      "hashD" = some g ∧ imgD1 ∈ g ∧ imgD2 ∈ g :=
  C3_amended [imgD1] [] imgD2 imgD1 "hashD" (by decide) rfl (by decide)
    (by simp only [process_duplicate_images_eval]; decide)

/-- C4 (counterexample): classifyDuplicates run on page 2's images alone
does not match the whole-document run restricted to page 2: d2 (page 2) is
an exact-hash duplicate of d1 (page 1), so the whole-document `unique`
restricted to page 2 is empty, while the page-2-only run makes d2 unique. -/
theorem C4_counterexample :
    (process_duplicate_images (page_images [imgD1, imgD2] 2)).unique ≠
      (process_duplicate_images [imgD1, imgD2]).unique.filter
        (fun i => i.page == 2) := by
  simp only [process_duplicate_images_eval]
  decide

/-- C4 (amended): the size classification does commute with page
restriction — `_filter_images_by_size` on a page's sublist equals the
whole-document partition restricted to that page — whereas (per the
counterexample) the duplicate classification does not. -/
theorem C4_amended (images : List Image) (m p : Nat) :
    filter_images_by_size (page_images images p) m =
      ((filter_images_by_size images m).1.filter (fun i => i.page == p),
       (filter_images_by_size images m).2.filter (fun i => i.page == p)) := by
  rw [filter_images_by_size_eq, filter_images_by_size_eq, page_images,
    Prod.mk.injEq]
  constructor
  · rw [List.filter_filter, List.filter_filter]
    exact List.filter_congr (fun x _ => Bool.and_comm _ _)
  · rw [List.filter_filter, List.filter_filter]
    exact List.filter_congr (fun x _ => Bool.and_comm _ _)

/-- C5: for records with nonzero dimensions, `_are_images_similar` returns
true exactly when width and height are each within the 5% relative
tolerance, the stored formats compare equal, and — whenever both byte
sizes are nonzero — the sizes are within the 10% relative tolerance; in
particular widths 100 and 105 pass the width test while 100 and 106 fail
it, all else equal. -/
theorem C5_theorem :
    (∀ a b : Image, a.width ≠ 0 → a.height ≠ 0 → b.width ≠ 0 → b.height ≠ 0 →
      (are_images_similar a b = true ↔
        (|(a.width : ℚ) - (b.width : ℚ)| /
            ((max a.width b.width : Nat) : ℚ) ≤ 0.05 ∧
         |(a.height : ℚ) - (b.height : ℚ)| /
            ((max a.height b.height : Nat) : ℚ) ≤ 0.05 ∧
         a.format = b.format ∧
         (a.size_bytes ≠ 0 → b.size_bytes ≠ 0 →
           |(a.size_bytes : ℚ) - (b.size_bytes : ℚ)| /
             ((max a.size_bytes b.size_bytes : Nat) : ℚ) ≤ 0.10)))) ∧
    are_images_similar img100 img105 = true ∧
    are_images_similar img100 img106 = false := by
  refine ⟨are_images_similar_true_iff, ?_, ?_⟩
  · rw [are_images_similar_eq]
    decide
  · rw [are_images_similar_eq]
    decide

/-- C5 (witness): the characterisation applied at the concrete boundary
pair (widths 100 and 105). -/
theorem C5_witness : are_images_similar img100 img105 = true :=
  (C5_theorem.1 img100 img105 (by decide) (by decide) (by decide)
      (by decide)).mpr
    ⟨by norm_num [img100, img105], by norm_num [img100, img105], rfl,
     by norm_num [img100, img105]⟩

/-- C6: `_filter_images_by_size` partitions exactly the named records by
`width * height < minSize * minSize` (small) versus `≥` (regular), as two
order-preserving filters of the input; at the boundary with minSize 256, a
256 x 256 record is regular and a 255 x 256 record is small. -/
theorem C6_theorem :
    (∀ (images : List Image) (m : Nat),
      filter_images_by_size images m =
        (images.filter (fun i => strTruthy i.filename &&
            decide (i.width * i.height < m * m)),
         images.filter (fun i => strTruthy i.filename &&
            !decide (i.width * i.height < m * m)))) ∧
    filter_images_by_size [img256, img255] 256 = ([img255], [img256]) :=
  ⟨filter_images_by_size_eq, by decide⟩

/-- C7: `_are_images_similar` is total; a zero width or height on either
side forces the result false, and a zero byte size on either side skips
the byte-size tolerance test entirely (the result then depends only on the
dimension tolerances and the format comparison). -/
theorem C7_theorem (a b : Image) :
    ((a.width = 0 ∨ a.height = 0 ∨ b.width = 0 ∨ b.height = 0) →
      are_images_similar a b = false) ∧
    ((a.size_bytes = 0 ∨ b.size_bytes = 0) →
      a.width ≠ 0 → a.height ≠ 0 → b.width ≠ 0 → b.height ≠ 0 →
      (are_images_similar a b = true ↔
        (|(a.width : ℚ) - (b.width : ℚ)| /
            ((max a.width b.width : Nat) : ℚ) ≤ 0.05 ∧
         |(a.height : ℚ) - (b.height : ℚ)| /
            ((max a.height b.height : Nat) : ℚ) ≤ 0.05 ∧
         a.format = b.format))) := by
  constructor
  · intro h
    rcases h with h | h | h | h <;> simp [are_images_similar, h]
  · intro hsz h1 h2 h3 h4
    rw [are_images_similar_true_iff a b h1 h2 h3 h4]
    constructor
    · rintro ⟨x, y, z, -⟩
      exact ⟨x, y, z⟩
    · rintro ⟨x, y, z⟩
      refine ⟨x, y, z, fun hn1 hn2 => ?_⟩
      rcases hsz with hql | hql
      · exact absurd hql hn1
      · exact absurd hql hn2

/-- C7 (witness): the zero-dimension clause applied at a concrete record
with zero width. -/
theorem C7_witness : are_images_similar imgR imgP = false :=
  (C7_theorem imgR imgP).1 (Or.inl rfl)

/-- C8: the pass rewrites the input list only by the hash enrichment:
`out` (the contents of the input list after the pass) is the pointwise
enrichment of the input, and the enrichment leaves nameless records and
records with a truthy hash untouched, while a named record without a
truthy hash changes only in its `hash` field, which gets the digest of
filename ++ sizeBytes. -/
theorem C8_theorem (images : List Image) :
    (process_duplicate_images images).out = images.map enrichImage ∧
    (∀ img : Image, strTruthy img.filename = false → enrichImage img = img) ∧
    (∀ img : Image, strTruthy img.hash = true → enrichImage img = img) ∧
    (∀ img : Image, strTruthy img.filename = true → strTruthy img.hash = false →
      enrichImage img = { img with hash := some (md5hex (synthInput img)) }) := by
  obtain ⟨-, -, -, -, -, -, hout⟩ := dupInv_process images
  refine ⟨hout, fun i hi => enrichImage_not_named hi,
    fun i hi => enrichImage_hash_truthy hi, fun i h1 h2 => ?_⟩
  simp [enrichImage, h1, h2]

/-- C8 (witness): the frame property applied to the singleton input `[a]`,
whose record is named and hashless, so only its hash field changes. -/
theorem C8_witness :
    (process_duplicate_images [imgA]).out = [imgA].map enrichImage ∧
    enrichImage imgA = { imgA with hash := some (md5hex (synthInput imgA)) } :=
  ⟨(C8_theorem [imgA]).1, (C8_theorem [imgA]).2.2.2 imgA (by decide) (by decide)⟩

/-- C9: every key of `duplicate_groups` is the content hash of a record of
the `unique` sequence, and that unique record is the first member of its
group (the group is seeded with the original); a record absorbed only as a
similar member is never a key or a first member. -/
theorem C9_theorem (images : List Image) :
    ∀ p ∈ (process_duplicate_images images).groups,
      ∃ u, u ∈ (process_duplicate_images images).unique ∧
        u.hash = some p.1 ∧ p.2.head? = some u := by
  obtain ⟨-, -, -, -, hgroups, -, -⟩ := dupInv_process images
  intro p hp
  rcases hgroups p hp with ⟨⟨u, h1, h2, h3⟩, -⟩
  exact ⟨u, h2, h3, h1⟩

/-- C9 (witness): the invariant applied to the single group produced by
the concrete input `[d1, d2]`. -/
theorem C9_witness :
    ∃ u, u ∈ (process_duplicate_images [imgD1, imgD2]).unique ∧
      u.hash = some (("hashD", [imgD1, imgD2]) : String × List Image).1 ∧
      (("hashD", [imgD1, imgD2]) : String × List Image).2.head? = some u :=
  C9_theorem [imgD1, imgD2] ("hashD", [imgD1, imgD2])
    (by simp only [process_duplicate_images_eval]; decide)

/-- C10: a named record with zero width or height has area 0, which is
below any positive threshold, so `_filter_images_by_size` routes it to the
small partition whenever minSize is at least 1. -/
theorem C10_theorem (images : List Image) (img : Image) (m : Nat)
    (hmem : img ∈ images) (hname : strTruthy img.filename = true)
    (hdim : img.width = 0 ∨ img.height = 0) (hm : 1 ≤ m) :
    img ∈ (filter_images_by_size images m).1 := by
  rw [filter_images_by_size_eq]
  refine List.mem_filter.mpr ⟨hmem, ?_⟩
  have harea : img.width * img.height = 0 := by
    rcases hdim with hq | hq
    · rw [hq, Nat.zero_mul]
    · rw [hq, Nat.mul_zero]
  have hlt : img.width * img.height < m * m := by
    rw [harea]
    exact Nat.mul_pos hm hm
  simp [hname, hlt]

/-- C10 (witness): a named 0 x 120 record is classified small with minSize
256. -/
theorem C10_witness : imgZ ∈ (filter_images_by_size [imgZ] 256).1 :=
  C10_theorem [imgZ] imgZ 256 (List.mem_singleton_self _) (by decide)
    (Or.inl rfl) (by decide)
